import Mathlib

/-!
Verification of the shared-memory JSON mailbox
(`src/include/shared_memory_json.hpp`, namespace `shared_memory`).

The region is a fixed-capacity byte buffer holding a `SharedMemoryHeader`
followed by a serialized JSON document; `write`, `read`, `readWithTimeout`
and `getSequenceNumber` bracket their accesses with a named POSIX
semaphore.  This file gives a shallow embedding of those operations and
settles the spec's claims about them.

Modelling conventions, stated once:
* Machine integers (`uint32_t`, `uint64_t`) become `Nat` with an explicit
  `% 2^64` where the C++ arithmetic can wrap (`sequence_number++`).
* The payload is a `List Char`; nlohmann serializes to a `std::string`
  and the byte buffer stores exactly those bytes, so a character-level
  model is faithful (capacity is counted in characters).
* `sem_wait`/`sem_post` pairs that the code completes are elided (the
  pair restores the count); a `sem_post` *without* a matching
  `sem_wait` — which `write`'s catch handler performs when the exception
  was thrown before `lock()` — is modelled explicitly as `+ 1`.
* Serialization/parsing is `nlohmann::json` (a third-party dependency,
  not part of this repository).  It is modelled from the spec: minified
  output, object keys kept strictly sorted and unique as `std::map`
  does, strings escaped as the library escapes them, and numbers
  modelled as arbitrary-precision integers (the `double` case is
  floating point and outside the embedding).
-/

namespace SharedMemorySpec

/-- Modelled from the spec: a JSON value as `nlohmann::json` holds it
(the library is external to this repository).  Numbers are modelled as
integers; object members are association lists which, in values the
library produces, are strictly sorted by key (`std::map`). -/
inductive Json where
  | null
  | bool (b : Bool)
  | num (n : Int)
  | str (s : List Char)
  | arr (elems : List Json)
  | obj (members : List (List Char × Json))
deriving Repr

/-- Decimal digit character for `d < 10`. -/
def decDigit (d : Nat) : Char := Char.ofNat (48 + d)

/-- Lowercase hexadecimal digit character for `d < 16`. -/
def hexDigit (d : Nat) : Char :=
  if d < 10 then Char.ofNat (48 + d) else Char.ofNat (87 + d)

/-- Decimal digit characters of `n`, most significant first. -/
def natChars (n : Nat) : List Char :=
  if n < 10 then [decDigit n] else natChars (n / 10) ++ [decDigit (n % 10)]
termination_by n
decreasing_by exact Nat.div_lt_self (by omega) (by omega)

/-- Decimal rendering of an integer: optional sign, then digits. -/
def intChars (i : Int) : List Char :=
  if i < 0 then '-' :: natChars i.natAbs else natChars i.natAbs

/-- One string character, escaped as nlohmann's serializer escapes it:
`"` and `\` get a backslash, the five control characters with short
forms use them, the remaining control characters become `\u00xx`
(lowercase hex), and everything else is emitted verbatim. -/
def escChar (c : Char) : List Char :=
  if c = '"' then ['\\', '"']
  else if c = '\\' then ['\\', '\\']
  else if c = Char.ofNat 8 then ['\\', 'b']
  else if c = Char.ofNat 9 then ['\\', 't']
  else if c = Char.ofNat 10 then ['\\', 'n']
  else if c = Char.ofNat 12 then ['\\', 'f']
  else if c = Char.ofNat 13 then ['\\', 'r']
  else if c.toNat < 32 then
    ['\\', 'u', '0', '0', hexDigit (c.toNat / 16), hexDigit (c.toNat % 16)]
  else [c]

/-- A rendered string literal: quote, escaped body, quote. -/
def strChars (s : List Char) : List Char :=
  '"' :: (s.flatMap escChar ++ ['"'])

mutual

/-- Modelled from the spec: `data.dump()` — nlohmann's minified
serialization (no added whitespace; object members in key order, which
is how the `std::map` stores them). -/
def dump : Json → List Char
  | .num i => intChars i
  | .str s => strChars s
  | .bool b => if b then 't' :: ['r', 'u', 'e'] else 'f' :: ['a', 'l', 's', 'e']
  | .null => 'n' :: ['u', 'l', 'l']
  | .arr xs => '[' :: (dumpItems xs ++ [']'])
  | .obj kvs => '{' :: (dumpFields kvs ++ ['}'])

/-- Comma-separated renderings of the elements of an array. -/
def dumpItems : List Json → List Char
  | [] => []
  | [x] => dump x
  | x :: y :: ys => dump x ++ ',' :: dumpItems (y :: ys)

/-- Comma-separated `"key":value` renderings of an object's members. -/
def dumpFields : List (List Char × Json) → List Char
  | [] => []
  | [(k, v)] => strChars k ++ ':' :: dump v
  | (k, v) :: m :: ms => (strChars k ++ ':' :: dump v) ++ ',' :: dumpFields (m :: ms)

end

/-- Strict lexicographic order on keys, as `std::less<std::string>`
compares them (byte order; UTF-8 byte order agrees with scalar-value
order, so the character-level comparison is faithful). -/
def keyLt : List Char → List Char → Bool
  | [], [] => false
  | [], _ :: _ => true
  | _ :: _, [] => false
  | x :: xs, y :: ys => x.toNat < y.toNat || (x = y && keyLt xs ys)

/-- All keys of `m` are strictly above `k`. -/
def keyBelowAll (k : List Char) (m : List (List Char × Json)) : Bool :=
  m.all fun kv => keyLt k kv.1

/-- The association list is strictly sorted by key (every key is below
all later ones) — the invariant of every `std::map`-backed object. -/
def sortedKeys : List (List Char × Json) → Bool
  | [] => true
  | kv :: m => keyBelowAll kv.1 m && sortedKeys m

mutual

/-- The value is one nlohmann can hold: every object in it is strictly
sorted by key with no duplicates, as `std::map` maintains. -/
def canonical : Json → Bool
  | .null => true
  | .bool _ => true
  | .num _ => true
  | .str _ => true
  | .arr xs => canonicalItems xs
  | .obj kvs => sortedKeys kvs && canonicalFields kvs

/-- Every element of the list is `canonical`. -/
def canonicalItems : List Json → Bool
  | [] => true
  | x :: xs => canonical x && canonicalItems xs

/-- Every member value of the list is `canonical`. -/
def canonicalFields : List (List Char × Json) → Bool
  | [] => true
  | (_, v) :: kvs => canonical v && canonicalFields kvs

end

/-! ## The parser

Modelled from the spec: `json::parse` — a recursive-descent JSON reader.
Whitespace may precede any token; numbers are read as optional sign plus
a digit run (the integer fragment of the grammar); strings undo the
escapes; objects are rebuilt by `std::map` insertion, so members end up
sorted with a duplicate key keeping the last value.  Recursion is on an
explicit fuel counter; `parseJson` supplies more fuel than the input has
characters, which the round-trip proof shows is always enough. -/

/-- Whitespace as the JSON grammar knows it. -/
def isWsp (c : Char) : Bool := c = ' ' || c = Char.ofNat 9 || c = Char.ofNat 10 || c = Char.ofNat 13

/-- ASCII decimal digit test. -/
def isDig (c : Char) : Bool := 48 ≤ c.toNat && c.toNat ≤ 57

/-- Drop leading whitespace. -/
def dropWs : List Char → List Char
  | c :: cs => if isWsp c then dropWs cs else c :: cs
  | [] => []

/-- Split off the maximal leading digit run. -/
def grabDigs : List Char → List Char × List Char
  | c :: cs =>
    if isDig c then
      let p := grabDigs cs
      (c :: p.1, p.2)
    else ([], c :: cs)
  | [] => ([], [])

/-- Numeric value of a digit run. -/
def digsVal (ds : List Char) : Nat :=
  ds.foldl (fun a c => a * 10 + (c.toNat - 48)) 0

/-- Read an integer literal: optional `-`, then at least one digit. -/
def readInt (cs : List Char) : Option (Int × List Char) :=
  match cs with
  | '-' :: rest =>
    let p := grabDigs rest
    if p.1.isEmpty then none else some (-(digsVal p.1 : Int), p.2)
  | _ =>
    let p := grabDigs cs
    if p.1.isEmpty then none else some ((digsVal p.1 : Int), p.2)

/-- Value of a hexadecimal digit character, if it is one. -/
def hexVal (c : Char) : Option Nat :=
  if 48 ≤ c.toNat && c.toNat ≤ 57 then some (c.toNat - 48)
  else if 97 ≤ c.toNat && c.toNat ≤ 102 then some (c.toNat - 87)
  else if 65 ≤ c.toNat && c.toNat ≤ 70 then some (c.toNat - 55)
  else none

/-- Read a string body after the opening quote, undoing escapes, up to
the closing quote.  Structural on the input. -/
def readStrBody : List Char → Option (List Char × List Char)
  | '"' :: rest => some ([], rest)
  | '\\' :: 'u' :: a :: b :: c :: d :: rest =>
    (match hexVal a, hexVal b, hexVal c, hexVal d with
     | some va, some vb, some vc, some vd =>
       (fun p : List Char × List Char =>
         (Char.ofNat (((va * 16 + vb) * 16 + vc) * 16 + vd) :: p.1, p.2)) <$> readStrBody rest
     | _, _, _, _ => none)
  | '\\' :: e :: rest =>
    (match (if e = '"' then some '"'
            else if e = '\\' then some '\\'
            else if e = '/' then some '/'
            else if e = 'b' then some (Char.ofNat 8)
            else if e = 'f' then some (Char.ofNat 12)
            else if e = 'n' then some (Char.ofNat 10)
            else if e = 'r' then some (Char.ofNat 13)
            else if e = 't' then some (Char.ofNat 9)
            else none) with
     | some ch => (fun p : List Char × List Char => (ch :: p.1, p.2)) <$> readStrBody rest
     | none => none)
  | c :: rest => (fun p : List Char × List Char => (c :: p.1, p.2)) <$> readStrBody rest
  | [] => none

/-- Insert a member into a key-sorted object, as `std::map::operator[]`
followed by assignment does: an existing key keeps its place and takes
the new value, a new key goes to its sorted position. -/
def insKV : List (List Char × Json) → List Char × Json → List (List Char × Json)
  | [], kv => [kv]
  | (k, v) :: m, kv =>
    if kv.1 = k then (k, kv.2) :: m
    else if keyLt kv.1 k then kv :: (k, v) :: m
    else (k, v) :: insKV m kv

/-- Rebuild an object from members in source order via map insertion. -/
def buildObj (raw : List (List Char × Json)) : List (List Char × Json) :=
  raw.foldl insKV []

mutual

/-- Parse one JSON value (fuel-bounded). -/
def pVal : Nat → List Char → Option (Json × List Char)
  | 0, _ => none
  | fuel + 1, cs =>
    match dropWs cs with
    | 'n' :: 'u' :: 'l' :: 'l' :: r => some (.null, r)
    | 't' :: 'r' :: 'u' :: 'e' :: r => some (.bool true, r)
    | 'f' :: 'a' :: 'l' :: 's' :: 'e' :: r => some (.bool false, r)
    | '"' :: r => (fun p => (.str p.1, p.2)) <$> readStrBody r
    | '[' :: r =>
      (match dropWs r with
       | ']' :: r2 => some (.arr [], r2)
       | cs2 => (fun p => (.arr p.1, p.2)) <$> pItems fuel cs2)
    | '{' :: r =>
      (match dropWs r with
       | '}' :: r2 => some (.obj [], r2)
       | cs2 => (fun p => (.obj (buildObj p.1), p.2)) <$> pFields fuel cs2)
    | c :: r =>
      if c = '-' || isDig c then (fun p => (.num p.1, p.2)) <$> readInt (c :: r)
      else none
    | [] => none

/-- Parse one-or-more comma-separated array elements, consuming the
closing `]`. -/
def pItems : Nat → List Char → Option (List Json × List Char)
  | 0, _ => none
  | fuel + 1, cs =>
    match pVal fuel cs with
    | some (v, r) =>
      (match dropWs r with
       | ',' :: r2 =>
         (match pItems fuel r2 with
          | some (vs, r3) => some (v :: vs, r3)
          | none => none)
       | ']' :: r2 => some ([v], r2)
       | _ => none)
    | none => none

/-- Parse one-or-more comma-separated object members in source order,
consuming the closing `}`. -/
def pFields : Nat → List Char → Option (List (List Char × Json) × List Char)
  | 0, _ => none
  | fuel + 1, cs =>
    match dropWs cs with
    | '"' :: r =>
      (match readStrBody r with
       | some (k, r1) =>
         (match dropWs r1 with
          | ':' :: r2 =>
            (match pVal fuel r2 with
             | some (v, r3) =>
               (match dropWs r3 with
                | ',' :: r4 =>
                  (match pFields fuel r4 with
                   | some (kvs, r5) => some ((k, v) :: kvs, r5)
                   | none => none)
                | '}' :: r4 => some ([(k, v)], r4)
                | _ => none)
             | none => none)
          | _ => none)
       | none => none)
    | _ => none

end

/-- Parse a complete document: one value, then nothing but whitespace. -/
def parseJson (cs : List Char) : Option Json :=
  match pVal (cs.length + 1) cs with
  | some (v, r) => if (dropWs r).isEmpty then some v else none
  | none => none

/-- The input cannot extend a digit run: empty or headed by a non-digit.
Every context following a number in serialized output (`,`, `]`, `}`,
end of document) qualifies. -/
def noDigHead : List Char → Bool
  | [] => true
  | c :: _ => !isDig c

/-! ## The shared-memory mailbox

The embedding of `SharedMemoryJSON` itself.  A state is the mapped
region (header plus payload buffer), the named semaphore's counter, and
the `last_error_` member.  `max_size` (`max_data_size_`) is passed to
each operation as `cap`; `getCurrentTimestamp()` is passed to `write` as
`ts`, since wall-clock time is an input of the embedding. -/

/-- The constant `MAGIC_NUMBER = 0x534D4A53` ("SMJS"). -/
def MAGIC_NUMBER : Nat := 0x534D4A53

/-- The constant `PROTOCOL_VERSION = 1`. -/
def PROTOCOL_VERSION : Nat := 1

/-- One past the largest `uint64_t`: `sequence_number++` wraps at this. -/
def U64 : Nat := 2 ^ 64

/-- The fixed-layout region header.  The C++ struct ends in 32 reserved
padding bytes that no operation reads or writes; they are omitted. -/
structure SharedMemoryHeader where
  magic_number : Nat
  version : Nat
  data_size : Nat
  sequence_number : Nat
  timestamp : Nat
deriving Repr, DecidableEq

/-- One `SharedMemoryJSON` attachment: the mapped region it sees, the
semaphore counter it shares, and its `last_error_` string. -/
structure SMState where
  header : SharedMemoryHeader
  payload : List Char
  semValue : Nat
  last_error : String
deriving Repr, DecidableEq

/-- Error strings as the source sets `last_error_` (the parse-failure
text is a stand-in: the real message is produced by nlohmann). -/
def errTooLarge : String := "JSON data too large for shared memory region"

/-- The `read` failure message for an uninitialized region. -/
def errMagic : String := "Invalid magic number - shared memory not initialized"

/-- The `read` failure message for a protocol version mismatch. -/
def errVersion : String := "Protocol version mismatch"

/-- The `read` failure message for an empty slot. -/
def errNoData : String := "No data in shared memory"

/-- The `readWithTimeout` failure message on timeout. -/
def errTimeout : String := "Timeout waiting for new data"

/-- Stand-in for the nlohmann `parse_error` exception message. -/
def errParse : String := "json parse error"

/-- The all-zero header `memset` produces. -/
def zeroHeader : SharedMemoryHeader :=
  { magic_number := 0, version := 0, data_size := 0, sequence_number := 0, timestamp := 0 }

/-- The region as `initPosix(create = true)` leaves it: `memset` zeroes
header and payload; the fresh named semaphore starts at 1 (unlocked). -/
def freshState (cap : Nat) : SMState where
  header := zeroHeader
  payload := List.replicate cap (Char.ofNat 0)
  semValue := 1
  last_error := ""

/-- `SharedMemoryJSON::write` (header lines 72–104).  Serialize; if the
result exceeds `max_data_size_`, throw — *before* `lock()` — and let the
catch handler call `unlock()` (a bare `sem_post`, modelled as `+ 1`) and
record the error.  Otherwise take the lock, set every header field,
bump `sequence_number` (wrapping `uint64_t` arithmetic), stamp the time,
copy the serialized bytes over the front of the payload buffer, and
release the lock (the completed wait/post pair leaves the count as it
was). -/
def write (cap ts : Nat) (st : SMState) (v : Json) : Bool × SMState :=
  let serialized := dump v
  if serialized.length > cap then
    (false, { st with semValue := st.semValue + 1, last_error := errTooLarge })
  else
    (true,
      { st with
          header :=
            { magic_number := MAGIC_NUMBER
              version := PROTOCOL_VERSION
              data_size := serialized.length
              sequence_number := (st.header.sequence_number + 1) % U64
              timestamp := ts % U64 }
          payload := serialized ++ st.payload.drop serialized.length })

/-- `SharedMemoryJSON::read` (header lines 111–151).  Under the lock
(completed wait/post pair, count unchanged): validate magic, version and
`data_size`, copy `data_size` bytes from the payload area, and parse
them; a parse failure is caught like any other exception, recording the
error with the lock released. -/
def read (st : SMState) : Except String Json × SMState :=
  if st.header.magic_number ≠ MAGIC_NUMBER then
    (.error errMagic, { st with last_error := errMagic })
  else if st.header.version ≠ PROTOCOL_VERSION then
    (.error errVersion, { st with last_error := errVersion })
  else if st.header.data_size = 0 then
    (.error errNoData, { st with last_error := errNoData })
  else
    match parseJson (st.payload.take st.header.data_size) with
    | some v => (.ok v, st)
    | none => (.error errParse, { st with last_error := errParse })

/-- The poll predicate of `readWithTimeout`: valid magic, nonempty slot,
and a sequence number strictly above the caller's baseline. -/
def pollOk (st : SMState) (last_seq : Nat) : Bool :=
  st.header.magic_number = MAGIC_NUMBER && st.header.data_size > 0 &&
    st.header.sequence_number > last_seq

/-- The polling loop of `SharedMemoryJSON::readWithTimeout` (header
lines 163–190), with `elapsed` milliseconds since `start` made explicit:
each iteration checks the slot under the lock, then compares elapsed
time against the deadline, then sleeps 10 ms.  Time is idealized: each
sleep advances `elapsed` by exactly the 10 ms poll interval and
everything else is instantaneous.  The returned `Nat` is the elapsed
time at which the call returns.  With no concurrent writer the region
never changes between iterations, which this sequential model reflects. -/
def rwtAux (st : SMState) (timeout_ms last_seq : Nat) (elapsed : Nat) :
    (Except String Json × SMState) × Nat :=
  if pollOk st last_seq then (read st, elapsed)
  else if timeout_ms ≤ elapsed then
    ((.error errTimeout, { st with last_error := errTimeout }), elapsed)
  else rwtAux st timeout_ms last_seq (elapsed + 10)
termination_by timeout_ms - elapsed
decreasing_by omega

/-- `readWithTimeout(data, timeout_ms, last_seq)` begins with zero
elapsed time. -/
def readWithTimeout (st : SMState) (timeout_ms last_seq : Nat) :
    (Except String Json × SMState) × Nat :=
  rwtAux st timeout_ms last_seq 0

/-- `SharedMemoryJSON::getSequenceNumber` (header lines 195–201): read
the counter under the lock and return it; nothing else changes. -/
def getSequenceNumber (st : SMState) : Nat × SMState :=
  (st.header.sequence_number, st)

/-- The named objects POSIX keeps per name: semaphores with their
counts, shared-memory objects with their contents (modelled as a mapped
region). -/
structure OSState where
  sems : List (String × Nat)
  shms : List (String × (SharedMemoryHeader × List Char))
deriving Repr, DecidableEq

/-- `sem_unlink`: remove the name (no effect when absent). -/
def semUnlink (os : OSState) (n : String) : OSState :=
  { os with sems := os.sems.filter fun p => p.1 != n }

/-- `sem_open(name, O_CREAT | O_EXCL, 0666, 1)`: fails if the name
exists, else registers a fresh semaphore with count 1. -/
def semOpenCreateExcl (os : OSState) (n : String) : Option OSState :=
  if (os.sems.lookup n).isSome then none
  else some { os with sems := (n, 1) :: os.sems }

/-- `shm_unlink`: remove the name (no effect when absent). -/
def shmUnlink (os : OSState) (n : String) : OSState :=
  { os with shms := os.shms.filter fun p => p.1 != n }

/-- `shm_open(name, O_CREAT | O_RDWR)` + `ftruncate` + `mmap` +
`memset 0`: after the preceding unlink the name is free, so a zeroed
region of the requested capacity is installed under it. -/
def shmCreateZero (os : OSState) (n : String) (cap : Nat) : OSState :=
  { os with shms := (n, (zeroHeader, List.replicate cap (Char.ofNat 0))) :: os.shms }

/-- The `create = true` branch of `SharedMemoryJSON::initPosix` (header
lines 303–352): unlink any semaphore named `/sem_<name>`, create a fresh
one exclusively, unlink any shared-memory object named `/<name>`, create
and zero a fresh one, and hand back the attachment.  `none` models the
constructor throwing. -/
def initPosixCreate (os : OSState) (nm : String) (cap : Nat) : Option (OSState × SMState) :=
  let os1 := semUnlink os ("/sem_" ++ nm)
  match semOpenCreateExcl os1 ("/sem_" ++ nm) with
  | none => none
  | some os2 =>
    let os3 := shmUnlink os2 ("/" ++ nm)
    some (shmCreateZero os3 ("/" ++ nm) cap, freshState cap)

/-- A region holding the serialized form of `v`, as every successful
`write(v)` leaves it: valid magic and version, `data_size` the
serialized length, the payload's front holding exactly those bytes, and
`v` a value the library can hold. -/
def goodState (v : Json) (st : SMState) : Prop :=
  st.header.magic_number = MAGIC_NUMBER ∧
  st.header.version = PROTOCOL_VERSION ∧
  st.header.data_size = (dump v).length ∧
  st.payload.take (dump v).length = dump v ∧
  canonical v = true

/-- Repeated writes of the same value, for exhibiting long histories. -/
def writeIter (cap : Nat) (v : Json) (k : Nat) (st : SMState) : SMState :=
  match k with
  | 0 => st
  | k + 1 => (write cap 0 (writeIter cap v k st) v).2

/-! ## Round trip, step 1: digit runs and integer literals -/

theorem decDigit_spec (d : Nat) (h : d < 10) :
    (decDigit d).toNat = 48 + d ∧ isDig (decDigit d) = true := by
  interval_cases d <;> exact ⟨by decide, by decide⟩

theorem natChars_unfold (n : Nat) :
    natChars n
      = (if n < 10 then [] else natChars (n / 10)) ++ [decDigit (n % 10)] := by
  rw [natChars]
  by_cases h : n < 10
  · simp [h, Nat.mod_eq_of_lt h]
  · simp [h]

theorem natChars_ne_nil (n : Nat) : natChars n ≠ [] := by
  rw [natChars_unfold]; simp

theorem natChars_digits (n : Nat) : ∀ c ∈ natChars n, isDig c = true := by
  induction n using Nat.strongRecOn with
  | _ n ih =>
    rw [natChars_unfold]
    intro c hc
    rcases List.mem_append.mp hc with h | h
    · by_cases h10 : n < 10
      · simp [h10] at h
      · exact ih (n / 10) (Nat.div_lt_self (by omega) (by omega)) c (by simpa [h10] using h)
    · rw [List.mem_singleton] at h
      subst h
      exact (decDigit_spec _ (Nat.mod_lt _ (by omega))).2

theorem digsVal_append_digit (ds : List Char) (c : Char) :
    digsVal (ds ++ [c]) = digsVal ds * 10 + (c.toNat - 48) := by
  simp [digsVal, List.foldl_append]

theorem digsVal_natChars (n : Nat) : digsVal (natChars n) = n := by
  induction n using Nat.strongRecOn with
  | _ n ih =>
    rw [natChars_unfold]
    by_cases h : n < 10
    · simp only [if_pos h, List.nil_append, digsVal, List.foldl_cons, List.foldl_nil]
      rw [(decDigit_spec _ (Nat.mod_lt _ (by omega))).1]
      omega
    · rw [if_neg h, digsVal_append_digit, ih (n / 10) (Nat.div_lt_self (by omega) (by omega)),
          (decDigit_spec _ (Nat.mod_lt _ (by omega))).1]
      omega

theorem grabDigs_stop {cs : List Char} (h : noDigHead cs = true) :
    grabDigs cs = ([], cs) := by
  match cs with
  | [] => rfl
  | c :: t =>
    simp only [noDigHead, Bool.not_eq_true'] at h
    simp [grabDigs, h]

theorem grabDigs_run (ds : List Char) (hds : ∀ c ∈ ds, isDig c = true)
    {rest : List Char} (hrest : noDigHead rest = true) :
    grabDigs (ds ++ rest) = (ds, rest) := by
  induction ds with
  | nil => simpa using grabDigs_stop hrest
  | cons c t ih =>
    have hc : isDig c = true := hds c (by simp)
    have ht := ih fun x hx => hds x (by simp [hx])
    simp [grabDigs, hc, ht]

theorem natChars_head (n : Nat) :
    ∃ c t, natChars n = c :: t ∧ isDig c = true := by
  match h : natChars n with
  | [] => exact absurd h (natChars_ne_nil n)
  | c :: t => exact ⟨c, t, rfl, natChars_digits n c (h ▸ List.mem_cons_self ..)⟩

theorem isDig_facts {c : Char} (h : isDig c = true) :
    c ≠ '-' ∧ isWsp c = false ∧ c ≠ 'n' ∧ c ≠ 't' ∧ c ≠ 'f' ∧ c ≠ '"' ∧
      c ≠ '[' ∧ c ≠ '{' ∧ c ≠ ']' ∧ c ≠ '}' ∧ c ≠ ',' := by
  refine ⟨?_, ?_, ?_, ?_, ?_, ?_, ?_, ?_, ?_, ?_, ?_⟩
  all_goals first
    | (rintro rfl; simp [isDig] at h)
    | (simp only [isWsp]
       have h1 : c ≠ ' ' := fun e => by subst e; simp [isDig] at h
       have h2 : c ≠ Char.ofNat 9 := fun e => by subst e; simp [isDig] at h
       have h3 : c ≠ Char.ofNat 10 := fun e => by subst e; simp [isDig] at h
       have h4 : c ≠ Char.ofNat 13 := fun e => by subst e; simp [isDig] at h
       simp [h1, h2, h3, h4])

theorem readInt_dump (i : Int) {rest : List Char} (hrest : noDigHead rest = true) :
    readInt (intChars i ++ rest) = some (i, rest) := by
  by_cases hi : i < 0
  · have harg : intChars i ++ rest = '-' :: (natChars i.natAbs ++ rest) := by
      simp [intChars, hi]
    rw [harg]
    simp only [readInt, grabDigs_run _ (natChars_digits _) hrest]
    rw [if_neg (by simp [natChars_ne_nil])]
    simp only [digsVal_natChars, Option.some.injEq, Prod.mk.injEq, and_true]
    omega
  · obtain ⟨c, t, hrepr, hcd⟩ := natChars_head i.natAbs
    have hne : c ≠ '-' := (isDig_facts hcd).1
    have harg : intChars i ++ rest = c :: (t ++ rest) := by
      simp [intChars, hi, hrepr]
    have hgrab : grabDigs (c :: (t ++ rest)) = (c :: t, rest) := by
      have := grabDigs_run (natChars i.natAbs) (natChars_digits _) hrest
      rwa [hrepr, List.cons_append] at this
    have hval : digsVal (c :: t) = i.natAbs := by
      have := digsVal_natChars i.natAbs
      rwa [hrepr] at this
    rw [harg, readInt.eq_def]
    split
    · rename_i r heq
      exact absurd (List.head_eq_of_cons_eq heq) hne
    · simp [hgrab, hval, Int.natAbs_of_nonneg (by omega : (0 : Int) ≤ i)]

/-! ## Round trip, step 2: string escapes -/

theorem hexVal_hexDigit (d : Nat) (h : d < 16) : hexVal (hexDigit d) = some d := by
  interval_cases d <;> decide

theorem readStrBody_escStep (c : Char) (tail : List Char) :
    readStrBody (escChar c ++ tail)
      = (fun p : List Char × List Char => (c :: p.1, p.2)) <$> readStrBody tail := by
  rw [escChar.eq_def]
  split_ifs with h1 h2 h3 h4 h5 h6 h7 h8
  · subst h1; rfl
  · subst h2; rfl
  · subst h3; rfl
  · subst h4; rfl
  · subst h5; rfl
  · subst h6; rfl
  · subst h7; rfl
  · simp only [List.cons_append, List.nil_append]
    have e16 : ∀ k : Nat, k % 16 < 16 := fun k => Nat.mod_lt _ (by omega)
    rw [readStrBody]
    simp only [hexVal_hexDigit _ (e16 _), hexVal_hexDigit _ (by omega : c.toNat / 16 < 16),
      show hexVal '0' = some 0 from rfl]
    have harith : ((0 * 16 + 0) * 16 + c.toNat / 16) * 16 + c.toNat % 16 = c.toNat := by omega
    rw [harith, Char.ofNat_toNat]
  · simp only [List.singleton_append]
    rw [readStrBody.eq_def]
    have hq : c ≠ '"' := h1
    have hb : c ≠ '\\' := h2
    simp [hq, hb]

theorem readStrBody_dump (s : List Char) (rest : List Char) :
    readStrBody (s.flatMap escChar ++ '"' :: rest) = some (s, rest) := by
  induction s with
  | nil => rfl
  | cons c t ih =>
    rw [List.flatMap_cons, List.append_assoc, readStrBody_escStep, ih]
    rfl

/-! ## Round trip, step 3: object rebuilding by sorted insertion -/

theorem keyLt_self (a : List Char) : keyLt a a = false := by
  induction a with
  | nil => rfl
  | cons x xs ih => simp [keyLt, ih]

theorem keyLt_ne {a b : List Char} (h : keyLt a b = true) : a ≠ b := by
  rintro rfl
  rw [keyLt_self] at h
  exact Bool.false_ne_true h

theorem keyLt_asymm {a b : List Char} (h : keyLt a b = true) : keyLt b a = false := by
  induction a generalizing b with
  | nil =>
    cases b with
    | nil => simp [keyLt] at h
    | cons y ys => rfl
  | cons x xs ih =>
    cases b with
    | nil => simp [keyLt] at h
    | cons y ys =>
      simp only [keyLt, Bool.or_eq_true, Bool.and_eq_true, decide_eq_true_eq] at h ⊢
      rcases h with h | ⟨rfl, h⟩
      · simp only [Bool.or_eq_false_iff, Bool.and_eq_false_iff]
        constructor
        · simp only [decide_eq_false_iff_not]
          omega
        · left
          simp only [decide_eq_false_iff_not]
          rintro rfl
          omega
      · simp [keyLt_self, ih h, Nat.lt_irrefl]

theorem insKV_atEnd (m : List (List Char × Json)) (k : List Char) (w : Json)
    (h : ∀ kv ∈ m, keyLt kv.1 k = true) :
    insKV m (k, w) = m ++ [(k, w)] := by
  induction m with
  | nil => rfl
  | cons kv m ih =>
    obtain ⟨k0, v0⟩ := kv
    have h0 : keyLt k0 k = true := h (k0, v0) (by simp)
    simp only [insKV, (keyLt_ne h0).symm, if_false, keyLt_asymm h0, Bool.false_eq_true,
      List.cons_append]
    rw [ih fun kv hkv => h kv (by simp [hkv])]

theorem keyBelowAll_spec {k : List Char} {m : List (List Char × Json)}
    (h : keyBelowAll k m = true) : ∀ kv ∈ m, keyLt k kv.1 = true := by
  intro kv hkv
  exact List.all_eq_true.mp h kv hkv

theorem foldl_insKV (raw : List (List Char × Json)) :
    ∀ m, (∀ a ∈ m, ∀ b ∈ raw, keyLt a.1 b.1 = true) → sortedKeys raw = true →
      raw.foldl insKV m = m ++ raw := by
  induction raw with
  | nil => intro m _ _; simp
  | cons kv rest ih =>
    intro m hlt hsort
    obtain ⟨k, v⟩ := kv
    simp only [sortedKeys, Bool.and_eq_true] at hsort
    have hstep : insKV m (k, v) = m ++ [(k, v)] :=
      insKV_atEnd m k v fun a ha => hlt a ha (k, v) (by simp)
    have hmono : ∀ a ∈ m ++ [(k, v)], ∀ b ∈ rest, keyLt a.1 b.1 = true := by
      intro a ha b hb
      rcases List.mem_append.mp ha with ha | ha
      · exact hlt a ha b (by simp [hb])
      · rw [List.mem_singleton] at ha
        subst ha
        exact keyBelowAll_spec hsort.1 b hb
    rw [List.foldl_cons, hstep, ih (m ++ [(k, v)]) hmono hsort.2]
    simp

theorem buildObj_sorted {kvs : List (List Char × Json)} (h : sortedKeys kvs = true) :
    buildObj kvs = kvs := by
  rw [buildObj, foldl_insKV kvs [] (by intro a ha b hb; cases ha) h, List.nil_append]

/-! ## Round trip, step 4: the parser inverts the serializer -/

theorem dropWs_cons (c : Char) (t : List Char) (hws : isWsp c = false) :
    dropWs (c :: t) = c :: t := by
  simp [dropWs, hws]

theorem dump_head (v : Json) :
    ∃ c t, dump v = c :: t ∧ isWsp c = false ∧ c ≠ ']' ∧ c ≠ '}' := by
  cases v with
  | null => exact ⟨'n', ['u', 'l', 'l'], by simp [dump], by decide, by decide, by decide⟩
  | bool b =>
    cases b with
    | false => exact ⟨'f', ['a', 'l', 's', 'e'], by simp [dump], by decide, by decide, by decide⟩
    | true => exact ⟨'t', ['r', 'u', 'e'], by simp [dump], by decide, by decide, by decide⟩
  | str s => exact ⟨'"', s.flatMap escChar ++ ['"'], by simp [dump, strChars], by decide,
      by decide, by decide⟩
  | arr xs => exact ⟨'[', dumpItems xs ++ [']'], by simp [dump], by decide, by decide, by decide⟩
  | obj kvs => exact ⟨'{', dumpFields kvs ++ ['}'], by simp [dump], by decide, by decide,
      by decide⟩
  | num i =>
    by_cases hi : i < 0
    · exact ⟨'-', natChars i.natAbs, by simp [dump, intChars, hi], by decide, by decide,
        by decide⟩
    · obtain ⟨c, t, hrepr, hcd⟩ := natChars_head i.natAbs
      obtain ⟨_, hws, _, _, _, _, _, _, hrb, hcb, _⟩ := isDig_facts hcd
      exact ⟨c, t, by simp [dump, intChars, hi, hrepr], hws, hrb, hcb⟩

theorem dump_len_pos (v : Json) : 0 < (dump v).length := by
  obtain ⟨c, t, h, -, -, -⟩ := dump_head v
  simp [h]

theorem dropWs_dump (v : Json) (x : List Char) :
    dropWs (dump v ++ x) = dump v ++ x := by
  obtain ⟨c, t, h, hws, -, -⟩ := dump_head v
  rw [h, List.cons_append, dropWs_cons c _ hws]
theorem pVal_numCase (f : Nat) (c : Char) (t : List Char)
    (hws : isWsp c = false) (hn : c ≠ 'n') (htr : c ≠ 't') (hfa : c ≠ 'f')
    (hq : c ≠ '"') (hlb : c ≠ '[') (hcb : c ≠ '{')
    (hnum : (c = '-' || isDig c) = true) :
    pVal (f + 1) (c :: t)
      = (fun p : Int × List Char => (Json.num p.1, p.2)) <$> readInt (c :: t) := by
  simp only [pVal]
  rw [dropWs_cons c t hws]
  split
  · rename_i heq; exact absurd (List.head_eq_of_cons_eq heq) hn
  · rename_i heq; exact absurd (List.head_eq_of_cons_eq heq) htr
  · rename_i heq; exact absurd (List.head_eq_of_cons_eq heq) hfa
  · rename_i heq; exact absurd (List.head_eq_of_cons_eq heq) hq
  · rename_i heq; exact absurd (List.head_eq_of_cons_eq heq) hlb
  · rename_i heq; exact absurd (List.head_eq_of_cons_eq heq) hcb
  · rename_i heq
    injection heq with h1 h2
    subst h1
    subst h2
    rw [if_pos (by simpa using hnum)]
  · rename_i heq; exact (List.cons_ne_nil _ _ heq).elim

theorem pVal_arrCase (f : Nat) (r : List Char) :
    pVal (f + 1) ('[' :: r)
      = (match dropWs r with
         | ']' :: r2 => some (Json.arr [], r2)
         | cs2 => (fun p => (Json.arr p.1, p.2)) <$> pItems f cs2) := by
  simp [pVal, dropWs, isWsp]

theorem pVal_objCase (f : Nat) (r : List Char) :
    pVal (f + 1) ('{' :: r)
      = (match dropWs r with
         | '}' :: r2 => some (Json.obj [], r2)
         | cs2 => (fun p => (Json.obj (buildObj p.1), p.2)) <$> pFields f cs2) := by
  simp [pVal, dropWs, isWsp]

theorem pVal_strCase (f : Nat) (r : List Char) :
    pVal (f + 1) ('"' :: r)
      = (fun p : List Char × List Char => (Json.str p.1, p.2)) <$> readStrBody r := by
  simp [pVal, dropWs, isWsp]

theorem noDigHead_cons (c : Char) (t : List Char) (h : isDig c = false) :
    noDigHead (c :: t) = true := by
  simp [noDigHead, h]

theorem canonicalItems_cons (x : Json) (xs : List Json) :
    canonicalItems (x :: xs) = (canonical x && canonicalItems xs) := by
  simp [canonicalItems]

theorem canonicalFields_cons (kv : List Char × Json) (kvs : List (List Char × Json)) :
    canonicalFields (kv :: kvs) = (canonical kv.2 && canonicalFields kvs) := by
  obtain ⟨k, v⟩ := kv
  simp [canonicalFields]

mutual

theorem rtV : ∀ (v : Json) (fuel : Nat) (rest : List Char),
    canonical v = true → (dump v).length < fuel → noDigHead rest = true →
    pVal fuel (dump v ++ rest) = some (v, rest)
  | .null, fuel, rest, _, hf, _ => by
    cases fuel with
    | zero => exact absurd hf (Nat.not_lt_zero _)
    | succ f =>
      rw [show dump Json.null ++ rest = 'n' :: 'u' :: 'l' :: 'l' :: rest from by simp [dump]]
      simp [pVal, dropWs, isWsp]
  | .bool b, fuel, rest, _, hf, _ => by
    cases fuel with
    | zero => exact absurd hf (Nat.not_lt_zero _)
    | succ f =>
      cases b with
      | false =>
        rw [show dump (Json.bool false) ++ rest = 'f' :: 'a' :: 'l' :: 's' :: 'e' :: rest
          from by simp [dump]]
        simp [pVal, dropWs, isWsp]
      | true =>
        rw [show dump (Json.bool true) ++ rest = 't' :: 'r' :: 'u' :: 'e' :: rest
          from by simp [dump]]
        simp [pVal, dropWs, isWsp]
  | .num i, fuel, rest, _, hf, hr => by
    cases fuel with
    | zero => exact absurd hf (Nat.not_lt_zero _)
    | succ f =>
      by_cases hi : i < 0
      · rw [show dump (Json.num i) ++ rest = '-' :: (natChars i.natAbs ++ rest)
          from by simp [dump, intChars, hi]]
        rw [pVal_numCase f '-' _ (by decide) (by decide) (by decide) (by decide) (by decide)
          (by decide) (by decide) (by decide)]
        rw [show '-' :: (natChars i.natAbs ++ rest) = intChars i ++ rest
          from by simp [intChars, hi]]
        rw [readInt_dump i hr]
        rfl
      · obtain ⟨c, t, hrepr, hcd⟩ := natChars_head i.natAbs
        obtain ⟨-, hws, hn, htr, hfa, hq, hlb, hcb, -, -, -⟩ := isDig_facts hcd
        rw [show dump (Json.num i) ++ rest = c :: (t ++ rest)
          from by simp [dump, intChars, hi, hrepr]]
        rw [pVal_numCase f c _ hws hn htr hfa hq hlb hcb (by simp [hcd])]
        rw [show c :: (t ++ rest) = intChars i ++ rest
          from by simp [intChars, hi, hrepr]]
        rw [readInt_dump i hr]
        rfl
  | .str s, fuel, rest, _, hf, _ => by
    cases fuel with
    | zero => exact absurd hf (Nat.not_lt_zero _)
    | succ f =>
      rw [show dump (Json.str s) ++ rest = '"' :: (s.flatMap escChar ++ '"' :: rest)
        from by simp [dump, strChars]]
      rw [pVal_strCase, readStrBody_dump]
      rfl
  | .arr [], fuel, rest, _, hf, _ => by
    cases fuel with
    | zero => exact absurd hf (Nat.not_lt_zero _)
    | succ f =>
      rw [show dump (Json.arr []) ++ rest = '[' :: (']' :: rest) from by simp [dump, dumpItems]]
      rw [pVal_arrCase, dropWs_cons ']' rest (by decide)]
      rfl
  | .arr (x :: xs), fuel, rest, hc, hf, _ => by
    cases fuel with
    | zero => exact absurd hf (Nat.not_lt_zero _)
    | succ f =>
      simp only [canonical] at hc
      have he : (dump (Json.arr (x :: xs))).length = (dumpItems (x :: xs)).length + 2 := by
        simp [dump]
      have hkey := rtI x xs f rest hc (by omega)
      obtain ⟨c, t, hrepr, hws, hrb, -⟩ := dump_head x
      have hhead : ∃ t2, dumpItems (x :: xs) ++ ']' :: rest = c :: t2 := by
        cases xs with
        | nil => exact ⟨t ++ ']' :: rest, by simp [dumpItems, hrepr]⟩
        | cons y ys =>
          exact ⟨(t ++ ',' :: dumpItems (y :: ys)) ++ ']' :: rest, by simp [dumpItems, hrepr]⟩
      obtain ⟨t2, ht2⟩ := hhead
      rw [show dump (Json.arr (x :: xs)) ++ rest = '[' :: (dumpItems (x :: xs) ++ ']' :: rest)
        from by simp [dump]]
      rw [pVal_arrCase, ht2, dropWs_cons c t2 hws]
      split
      · rename_i heq
        exact absurd (List.head_eq_of_cons_eq heq) hrb
      · rw [← ht2, hkey]
        rfl
  | .obj [], fuel, rest, _, hf, _ => by
    cases fuel with
    | zero => exact absurd hf (Nat.not_lt_zero _)
    | succ f =>
      rw [show dump (Json.obj []) ++ rest = '{' :: ('}' :: rest) from by simp [dump, dumpFields]]
      rw [pVal_objCase, dropWs_cons '}' rest (by decide)]
      rfl
  | .obj ((k, v) :: kvs), fuel, rest, hc, hf, _ => by
    cases fuel with
    | zero => exact absurd hf (Nat.not_lt_zero _)
    | succ f =>
      simp only [canonical, Bool.and_eq_true] at hc
      have he : (dump (Json.obj ((k, v) :: kvs))).length
          = (dumpFields ((k, v) :: kvs)).length + 2 := by
        simp [dump]
      have hkey := rtF k v kvs f rest hc.2 (by omega)
      have hhead : ∃ t2, dumpFields ((k, v) :: kvs) ++ '}' :: rest = '"' :: t2 := by
        cases kvs with
        | nil => exact ⟨(k.flatMap escChar ++ ['"']) ++ ':' :: dump v ++ '}' :: rest,
            by simp [dumpFields, strChars]⟩
        | cons kv2 ms =>
          exact ⟨((k.flatMap escChar ++ ['"']) ++ ':' :: dump v
              ++ ',' :: dumpFields (kv2 :: ms)) ++ '}' :: rest,
            by simp [dumpFields, strChars]⟩
      obtain ⟨t2, ht2⟩ := hhead
      rw [show dump (Json.obj ((k, v) :: kvs)) ++ rest
          = '{' :: (dumpFields ((k, v) :: kvs) ++ '}' :: rest) from by simp [dump]]
      rw [pVal_objCase, ht2, dropWs_cons '"' t2 (by decide)]
      split
      · rename_i heq
        exact absurd (List.head_eq_of_cons_eq heq) (by decide)
      · rw [← ht2, hkey]
        simp [buildObj_sorted hc.1]
  termination_by v _ _ _ _ _ => sizeOf v

theorem rtI : ∀ (x : Json) (xs : List Json) (fuel : Nat) (rest : List Char),
    canonicalItems (x :: xs) = true → (dumpItems (x :: xs)).length + 1 < fuel →
    pItems fuel (dumpItems (x :: xs) ++ ']' :: rest) = some (x :: xs, rest)
  | x, [], fuel, rest, hc, hf => by
    cases fuel with
    | zero => exact absurd hf (Nat.not_lt_zero _)
    | succ f =>
      rw [canonicalItems_cons, Bool.and_eq_true] at hc
      have heq1 : dumpItems [x] = dump x := by simp [dumpItems]
      have hlx : (dump x).length < f := by
        rw [heq1] at hf
        omega
      have hv := rtV x f (']' :: rest) hc.1 hlx (noDigHead_cons _ _ (by decide))
      rw [show dumpItems [x] ++ ']' :: rest = dump x ++ ']' :: rest from by rw [heq1]]
      simp only [pItems]
      rw [hv]
      simp [dropWs, isWsp]
  | x, y :: ys, fuel, rest, hc, hf => by
    cases fuel with
    | zero => exact absurd hf (Nat.not_lt_zero _)
    | succ f =>
      rw [canonicalItems_cons, Bool.and_eq_true] at hc
      have hsplit : dumpItems (x :: y :: ys) = dump x ++ ',' :: dumpItems (y :: ys) := by
        simp [dumpItems]
      have hlx : (dump x).length < f := by
        rw [hsplit] at hf
        simp only [List.length_append, List.length_cons] at hf
        omega
      have hly : (dumpItems (y :: ys)).length + 1 < f := by
        rw [hsplit] at hf
        have := dump_len_pos x
        simp only [List.length_append, List.length_cons] at hf
        omega
      have hv := rtV x f (',' :: (dumpItems (y :: ys) ++ ']' :: rest)) hc.1 hlx
        (noDigHead_cons _ _ (by decide))
      have hrec := rtI y ys f rest hc.2 hly
      rw [show dumpItems (x :: y :: ys) ++ ']' :: rest
          = dump x ++ ',' :: (dumpItems (y :: ys) ++ ']' :: rest) from by simp [hsplit]]
      simp only [pItems]
      rw [hv]
      simp [dropWs, isWsp, hrec]
  termination_by x xs _ _ _ _ => sizeOf x + sizeOf xs

theorem rtF : ∀ (k : List Char) (v : Json) (kvs : List (List Char × Json)) (fuel : Nat)
    (rest : List Char),
    canonicalFields ((k, v) :: kvs) = true → (dumpFields ((k, v) :: kvs)).length + 1 < fuel →
    pFields fuel (dumpFields ((k, v) :: kvs) ++ '}' :: rest) = some ((k, v) :: kvs, rest)
  | k, v, [], fuel, rest, hc, hf => by
    cases fuel with
    | zero => exact absurd hf (Nat.not_lt_zero _)
    | succ f =>
      rw [canonicalFields_cons, Bool.and_eq_true] at hc
      have heq1 : (dumpFields [(k, v)]).length
          = (strChars k).length + 1 + (dump v).length := by
        simp [dumpFields]
        omega
      have hsp : 0 < (strChars k).length := by simp [strChars]
      have hlv : (dump v).length < f := by omega
      have hv := rtV v f ('}' :: rest) hc.1 hlv (noDigHead_cons _ _ (by decide))
      rw [show dumpFields [(k, v)] ++ '}' :: rest
          = '"' :: (k.flatMap escChar ++ '"' :: (':' :: (dump v ++ '}' :: rest)))
        from by simp [dumpFields, strChars]]
      simp only [pFields]
      simp [readStrBody_dump, hv, dropWs, isWsp]
  | k, v, (k2, v2) :: ms, fuel, rest, hc, hf => by
    cases fuel with
    | zero => exact absurd hf (Nat.not_lt_zero _)
    | succ f =>
      rw [canonicalFields_cons, Bool.and_eq_true] at hc
      have hsplit : dumpFields ((k, v) :: (k2, v2) :: ms)
          = (strChars k ++ ':' :: dump v) ++ ',' :: dumpFields ((k2, v2) :: ms) := by
        simp [dumpFields]
      have hlv : (dump v).length < f := by
        rw [hsplit] at hf
        simp only [List.length_append, List.length_cons] at hf
        omega
      have hlm : (dumpFields ((k2, v2) :: ms)).length + 1 < f := by
        rw [hsplit] at hf
        have := dump_len_pos v
        simp only [List.length_append, List.length_cons] at hf
        omega
      have hv := rtV v f (',' :: (dumpFields ((k2, v2) :: ms) ++ '}' :: rest)) hc.1 hlv
        (noDigHead_cons _ _ (by decide))
      have hrec := rtF k2 v2 ms f rest hc.2 hlm
      rw [show dumpFields ((k, v) :: (k2, v2) :: ms) ++ '}' :: rest
          = '"' :: (k.flatMap escChar
              ++ '"' :: (':' :: (dump v ++ ',' :: (dumpFields ((k2, v2) :: ms) ++ '}' :: rest))))
        from by simp [hsplit, strChars]]
      simp only [pFields]
      simp [readStrBody_dump, hv, hrec, dropWs, isWsp]
  termination_by _ v kvs _ _ _ _ => sizeOf v + sizeOf kvs

end

/-- The serializer/parser pair round-trips on every value the library can
hold: `json::parse (data.dump())` recovers `data`. -/
theorem parseJson_dump (v : Json) (hc : canonical v = true) :
    parseJson (dump v) = some v := by
  have hv := rtV v ((dump v).length + 1) [] hc (by omega) (by decide)
  rw [List.append_nil] at hv
  rw [parseJson, hv]
  simp [dropWs]

/-! ## Behaviour of the mailbox operations -/

theorem write_fits {cap ts : Nat} {st : SMState} {v : Json}
    (hfit : (dump v).length ≤ cap) :
    write cap ts st v =
      (true,
        { st with
            header :=
              { magic_number := MAGIC_NUMBER
                version := PROTOCOL_VERSION
                data_size := (dump v).length
                sequence_number := (st.header.sequence_number + 1) % U64
                timestamp := ts % U64 }
            payload := dump v ++ st.payload.drop (dump v).length }) := by
  unfold write
  rw [if_neg (by omega)]

theorem write_tooLarge {cap ts : Nat} {st : SMState} {v : Json}
    (hbig : (dump v).length > cap) :
    write cap ts st v
      = (false, { st with semValue := st.semValue + 1, last_error := errTooLarge }) := by
  unfold write
  rw [if_pos (by omega)]

theorem write_goodState {cap ts : Nat} {st : SMState} {v : Json}
    (hc : canonical v = true) (hfit : (dump v).length ≤ cap) :
    goodState v ((write cap ts st v).2) := by
  rw [write_fits hfit]
  exact ⟨rfl, rfl, rfl, List.take_left _ _, hc⟩

theorem read_goodState {v : Json} {st : SMState} (h : goodState v st) :
    read st = (.ok v, st) := by
  obtain ⟨hm, hver, hd, hp, hc⟩ := h
  have hpos := dump_len_pos v
  unfold read
  rw [if_neg (by simp [hm]), if_neg (by simp [hver]), if_neg (by omega), hd, hp,
    parseJson_dump v hc]

theorem read_frame (st : SMState) :
    ((read st).2).header = st.header ∧ ((read st).2).payload = st.payload := by
  unfold read
  split_ifs
  · exact ⟨rfl, rfl⟩
  · exact ⟨rfl, rfl⟩
  · exact ⟨rfl, rfl⟩
  · split
    · exact ⟨rfl, rfl⟩
    · exact ⟨rfl, rfl⟩

theorem read_fst (st : SMState) :
    (read st).1
      = (if st.header.magic_number ≠ MAGIC_NUMBER then Except.error errMagic
         else if st.header.version ≠ PROTOCOL_VERSION then Except.error errVersion
         else if st.header.data_size = 0 then Except.error errNoData
         else
           match parseJson (st.payload.take st.header.data_size) with
           | some v => Except.ok v
           | none => Except.error errParse) := by
  unfold read
  split_ifs
  · rfl
  · rfl
  · rfl
  · split
    · rfl
    · rfl

theorem rwtAux_poll {st : SMState} {q T e : Nat} (hp : pollOk st q = true) :
    rwtAux st T q e = (read st, e) := by
  unfold rwtAux
  rw [if_pos hp]

theorem rwtAux_deadline {st : SMState} {q T e : Nat} (hp : pollOk st q = false)
    (hT : T ≤ e) :
    rwtAux st T q e = ((Except.error errTimeout, { st with last_error := errTimeout }), e) := by
  unfold rwtAux
  rw [if_neg (by simp [hp]), if_pos hT]

theorem rwtAux_sleep {st : SMState} {q T e : Nat} (hp : pollOk st q = false)
    (hT : ¬ T ≤ e) :
    rwtAux st T q e = rwtAux st T q (e + 10) := by
  conv => lhs; unfold rwtAux
  rw [if_neg (by simp [hp]), if_neg hT]

theorem rwtAux_noNew {st : SMState} {q T : Nat} (hpoll : pollOk st q = false) :
    ∀ e, e < T + 10 →
      ∃ e2, rwtAux st T q e
          = ((Except.error errTimeout, { st with last_error := errTimeout }), e2)
        ∧ T ≤ e2 ∧ e2 < T + 10 := by
  have key : ∀ n e, T - e ≤ n → e < T + 10 →
      ∃ e2, rwtAux st T q e
          = ((Except.error errTimeout, { st with last_error := errTimeout }), e2)
        ∧ T ≤ e2 ∧ e2 < T + 10 := by
    intro n
    induction n with
    | zero =>
      intro e hn he
      have hT : T ≤ e := by omega
      exact ⟨e, rwtAux_deadline hpoll hT, hT, he⟩
    | succ n ih =>
      intro e hn he
      by_cases hT : T ≤ e
      · exact ⟨e, rwtAux_deadline hpoll hT, hT, he⟩
      · obtain ⟨e2, heq, h1, h2⟩ := ih (e + 10) (by omega) (by omega)
        exact ⟨e2, (rwtAux_sleep hpoll hT).trans heq, h1, h2⟩
  intro e he
  exact key (T - e) e (Nat.le_refl _) he

theorem rwtAux_frame (st : SMState) (q T : Nat) :
    ∀ e, ((rwtAux st T q e).1.2).header = st.header
      ∧ ((rwtAux st T q e).1.2).payload = st.payload := by
  have key : ∀ n e, T - e ≤ n →
      ((rwtAux st T q e).1.2).header = st.header
        ∧ ((rwtAux st T q e).1.2).payload = st.payload := by
    intro n
    induction n with
    | zero =>
      intro e hn
      by_cases hp : pollOk st q = true
      · rw [rwtAux_poll hp]
        exact read_frame st
      · rw [rwtAux_deadline (Bool.not_eq_true _ ▸ hp) (by omega)]
        exact ⟨rfl, rfl⟩
    | succ n ih =>
      intro e hn
      by_cases hp : pollOk st q = true
      · rw [rwtAux_poll hp]
        exact read_frame st
      · have hp2 : pollOk st q = false := Bool.not_eq_true _ ▸ hp
        by_cases hT : T ≤ e
        · rw [rwtAux_deadline hp2 hT]
          exact ⟨rfl, rfl⟩
        · rw [rwtAux_sleep hp2 hT]
          exact ih (e + 10) (by omega)
  intro e
  exact key (T - e) e (Nat.le_refl _)

theorem rwtAux_congr {st1 st2 : SMState} {q : Nat}
    (hpoll : pollOk st1 q = pollOk st2 q) (hread : (read st1).1 = (read st2).1) (T : Nat) :
    ∀ e, (rwtAux st1 T q e).1.1 = (rwtAux st2 T q e).1.1
      ∧ (rwtAux st1 T q e).2 = (rwtAux st2 T q e).2 := by
  have key : ∀ n e, T - e ≤ n →
      (rwtAux st1 T q e).1.1 = (rwtAux st2 T q e).1.1
        ∧ (rwtAux st1 T q e).2 = (rwtAux st2 T q e).2 := by
    intro n
    induction n with
    | zero =>
      intro e hn
      by_cases hp : pollOk st1 q = true
      · rw [rwtAux_poll hp, rwtAux_poll (hpoll ▸ hp)]
        exact ⟨hread, rfl⟩
      · have hp1 : pollOk st1 q = false := Bool.not_eq_true _ ▸ hp
        have hp2 : pollOk st2 q = false := hpoll ▸ hp1
        rw [rwtAux_deadline hp1 (by omega), rwtAux_deadline hp2 (by omega)]
        exact ⟨rfl, rfl⟩
    | succ n ih =>
      intro e hn
      by_cases hp : pollOk st1 q = true
      · rw [rwtAux_poll hp, rwtAux_poll (hpoll ▸ hp)]
        exact ⟨hread, rfl⟩
      · have hp1 : pollOk st1 q = false := Bool.not_eq_true _ ▸ hp
        have hp2 : pollOk st2 q = false := hpoll ▸ hp1
        by_cases hT : T ≤ e
        · rw [rwtAux_deadline hp1 hT, rwtAux_deadline hp2 hT]
          exact ⟨rfl, rfl⟩
        · rw [rwtAux_sleep hp1 hT, rwtAux_sleep hp2 hT]
          exact ih (e + 10) (by omega)
  intro e
  exact key (T - e) e (Nat.le_refl _)

theorem writeIter_seq {cap : Nat} {v : Json} (hfit : (dump v).length ≤ cap) :
    ∀ k, (writeIter cap v k (freshState cap)).header.sequence_number = k % U64 := by
  intro k
  induction k with
  | zero => simp [writeIter, freshState, zeroHeader]
  | succ k ih =>
    have hU : U64 = 18446744073709551616 := rfl
    show ((write cap 0 (writeIter cap v k (freshState cap)) v).2).header.sequence_number = _
    rw [write_fits hfit]
    simp only [ih]
    rw [hU]
    omega

theorem lookup_filterNe {α : Type} (l : List (String × α)) (n : String) :
    (l.filter fun p => p.1 != n).lookup n = none := by
  induction l with
  | nil => rfl
  | cons p t ih =>
    obtain ⟨k, v⟩ := p
    by_cases h : k = n
    · simp only [List.filter_cons]
      rw [if_neg (by simp [h])]
      exact ih
    · simp only [List.filter_cons]
      rw [if_pos (by simp [h])]
      simp only [List.lookup]
      rw [show (n == k) = false from by simp [Ne.symm h]]
      exact ih

/-! ## The claims -/

/-- C1: for every JSON value whose serialized length is at most the
region capacity, `write(V)` succeeds and a subsequent `read()` on the
same region returns a value structurally equal to `V`. -/
theorem claim_C1_write_read_roundtrip (cap ts : Nat) (st : SMState) (v : Json)
    (hc : canonical v = true) (hfit : (dump v).length ≤ cap) :
    (write cap ts st v).1 = true ∧ (read (write cap ts st v).2).1 = Except.ok v := by
  refine ⟨?_, ?_⟩
  · rw [write_fits hfit]
  · rw [read_goodState (write_goodState hc hfit)]

/-- C1 witness: the round trip evaluated at the value `{"a": 1}` on a
fresh region of capacity 32. -/
theorem claim_C1_witness :
    (write 32 7 (freshState 32) (Json.obj [(['a'], Json.num 1)])).1 = true ∧
    (read (write 32 7 (freshState 32) (Json.obj [(['a'], Json.num 1)])).2).1
      = Except.ok (Json.obj [(['a'], Json.num 1)]) :=
  claim_C1_write_read_roundtrip 32 7 (freshState 32) (Json.obj [(['a'], Json.num 1)])
    (by simp [canonical, canonicalFields, canonicalItems, sortedKeys, keyBelowAll])
    (by simp [dump, dumpFields, strChars, escChar, intChars, natChars, decDigit])

/-- C2: the code evaluated at the failing input.  A write whose
serialized form exceeds the capacity throws *before* `lock()`, yet the
catch handler still calls `unlock()`: the semaphore count rises from 1
to 2 — a release with no matching acquire, so the lock state after
`write` differs from its state before the call. -/
theorem claim_C2_unlock_without_lock :
    (write 4 0 (freshState 4) (Json.str ['1', '2', '3', '4', '5'])).1 = false ∧
    (freshState 4).semValue = 1 ∧
    ((write 4 0 (freshState 4) (Json.str ['1', '2', '3', '4', '5'])).2).semValue = 2 := by
  have hbig : (dump (Json.str ['1', '2', '3', '4', '5'])).length > 4 := by
    simp [dump, strChars, escChar]
  refine ⟨?_, rfl, ?_⟩
  · rw [write_tooLarge hbig]
  · rw [write_tooLarge hbig]
    rfl

/-- C3 (amended): a freshly created region has sequence number 0; a
successful `write` sets the counter to its prior value plus one reduced
modulo 2^64 — an increment by exactly one whenever the prior value is
below 2^64 − 1 — and `read`, `readWithTimeout` and `getSequenceNumber`
leave it unchanged. -/
theorem claim_C3_sequence (cap ts : Nat) (st : SMState) (v : Json) :
    (freshState cap).header.sequence_number = 0 ∧
    ((write cap ts st v).1 = true →
      ((write cap ts st v).2).header.sequence_number
        = (st.header.sequence_number + 1) % U64) ∧
    ((read st).2).header.sequence_number = st.header.sequence_number ∧
    (∀ T q, ((readWithTimeout st T q).1.2).header.sequence_number
      = st.header.sequence_number) ∧
    ((getSequenceNumber st).2).header.sequence_number = st.header.sequence_number := by
  refine ⟨rfl, ?_, ?_, ?_, rfl⟩
  · intro hsucc
    by_cases hfit : (dump v).length ≤ cap
    · rw [write_fits hfit]
    · rw [write_tooLarge (by omega)] at hsucc
      exact absurd hsucc Bool.false_ne_true
  · rw [(read_frame st).1]
  · intro T q
    show ((rwtAux st T q 0).1.2).header.sequence_number = st.header.sequence_number
    rw [(rwtAux_frame st q T 0).1]

/-- C3 witness: the amended increment rule on a fresh region of
capacity 8 — the first write takes the counter from 0 to `1 % 2^64`. -/
theorem claim_C3_witness :
    ((write 8 0 (freshState 8) Json.null).2).header.sequence_number
      = ((freshState 8).header.sequence_number + 1) % U64 :=
  (claim_C3_sequence 8 0 (freshState 8) Json.null).2.1
    (by rw [write_fits (by simp [dump])])

/-- C3 counterexample: after 2^64 − 1 successful writes the counter
holds 2^64 − 1, the next write succeeds, and the counter wraps to 0
instead of rising by exactly one. -/
theorem claim_C3_counterexample :
    (writeIter 8 Json.null (U64 - 1) (freshState 8)).header.sequence_number = U64 - 1 ∧
    (write 8 0 (writeIter 8 Json.null (U64 - 1) (freshState 8)) Json.null).1 = true ∧
    ((write 8 0 (writeIter 8 Json.null (U64 - 1) (freshState 8))
        Json.null).2).header.sequence_number
      ≠ (writeIter 8 Json.null (U64 - 1) (freshState 8)).header.sequence_number + 1 := by
  have hfit : (dump Json.null).length ≤ 8 := by simp [dump]
  have hU : U64 = 18446744073709551616 := rfl
  have hseq : (writeIter 8 Json.null (U64 - 1) (freshState 8)).header.sequence_number
      = U64 - 1 := by
    rw [writeIter_seq hfit (U64 - 1), hU]
  have hstep : ∀ st : SMState, ((write 8 0 st Json.null).2).header.sequence_number
      = (st.header.sequence_number + 1) % U64 := by
    intro st
    rw [write_fits hfit]
  have h2 := hstep (writeIter 8 Json.null (U64 - 1) (freshState 8))
  rw [hseq] at h2
  refine ⟨hseq, ?_, ?_⟩
  · rw [write_fits hfit]
  · rw [h2, hseq, hU]
    omega

/-- C4: an oversized write fails with the payload-too-large error and
leaves every header field and payload byte untouched, so a subsequent
read still returns the prior value; a write of exactly the capacity
succeeds. -/
theorem claim_C4_payload_too_large (cap ts : Nat) (st : SMState) (v w v0 : Json)
    (hbig : (dump v).length > cap) (hexact : (dump w).length = cap) :
    (write cap ts st v).1 = false ∧
    ((write cap ts st v).2).header = st.header ∧
    ((write cap ts st v).2).payload = st.payload ∧
    ((write cap ts st v).2).last_error = errTooLarge ∧
    (goodState v0 st → (read (write cap ts st v).2).1 = Except.ok v0) ∧
    (write cap ts st w).1 = true := by
  refine ⟨?_, ?_, ?_, ?_, ?_, ?_⟩
  · rw [write_tooLarge hbig]
  · rw [write_tooLarge hbig]
  · rw [write_tooLarge hbig]
  · rw [write_tooLarge hbig]
  · intro hg
    obtain ⟨h1, h2, h3, h4, h5⟩ := hg
    have hg2 : goodState v0 ((write cap ts st v).2) := by
      rw [write_tooLarge hbig]
      exact ⟨h1, h2, h3, h4, h5⟩
    rw [read_goodState hg2]
  · rw [write_fits (by omega)]

/-- C4 witness: on a region of capacity 8 holding `null`, a 9-character
payload is rejected and the prior value is still readable, while an
exactly-8-character payload is accepted. -/
theorem claim_C4_witness :
    (write 8 0 ((write 8 0 (freshState 8) Json.null).2)
        (Json.str ['1', '2', '3', '4', '5', '6', '7'])).1 = false ∧
    (read (write 8 0 ((write 8 0 (freshState 8) Json.null).2)
        (Json.str ['1', '2', '3', '4', '5', '6', '7'])).2).1 = Except.ok Json.null ∧
    (write 8 0 ((write 8 0 (freshState 8) Json.null).2)
        (Json.str ['a', 'b', 'c', 'd', 'e', 'f'])).1 = true := by
  have h := claim_C4_payload_too_large 8 0 ((write 8 0 (freshState 8) Json.null).2)
    (Json.str ['1', '2', '3', '4', '5', '6', '7'])
    (Json.str ['a', 'b', 'c', 'd', 'e', 'f']) Json.null
    (by simp [dump, strChars, escChar])
    (by simp [dump, strChars, escChar])
  exact ⟨h.1, h.2.2.2.2.1 (write_goodState (by simp [canonical]) (by simp [dump])),
    h.2.2.2.2.2⟩

/-- C5: reading a freshly created region fails with the invalid-magic
(uninitialized) error — never success and never a parse failure —
because the zeroed magic number differs from the expected constant. -/
theorem claim_C5_read_uninitialized (cap : Nat) :
    (read (freshState cap)).1 = Except.error errMagic ∧
    ((read (freshState cap)).2).last_error = errMagic := by
  have hm : (freshState cap).header.magic_number ≠ MAGIC_NUMBER := by
    simp [freshState, zeroHeader, MAGIC_NUMBER]
  constructor
  · unfold read
    rw [if_pos hm]
  · unfold read
    rw [if_pos hm]

/-- C6 (amended): after a successful write that did not wrap the
sequence counter (prior value below 2^64 − 1), `readWithTimeout` with
`lastSeq = 0` succeeds on its very first poll — elapsed time 0, no
sleep — for every timeout value, returning the value just written. -/
theorem claim_C6_immediate (cap ts T : Nat) (st : SMState) (v : Json)
    (hc : canonical v = true) (hfit : (dump v).length ≤ cap)
    (hnowrap : st.header.sequence_number + 1 < U64) :
    (readWithTimeout ((write cap ts st v).2) T 0).1.1 = Except.ok v ∧
    (readWithTimeout ((write cap ts st v).2) T 0).2 = 0 := by
  have hgood : goodState v ((write cap ts st v).2) := write_goodState hc hfit
  have hpoll : pollOk ((write cap ts st v).2) 0 = true := by
    rw [write_fits hfit]
    simp [pollOk, Nat.mod_eq_of_lt hnowrap, dump_len_pos v]
  constructor
  · show (rwtAux ((write cap ts st v).2) T 0 0).1.1 = Except.ok v
    rw [rwtAux_poll hpoll, read_goodState hgood]
  · show (rwtAux ((write cap ts st v).2) T 0 0).2 = 0
    rw [rwtAux_poll hpoll]

/-- C6 witness: a fresh region of capacity 16, one write of `null`,
then `readWithTimeout` with timeout 0 and `lastSeq = 0` — immediate
success with the written value and zero elapsed time. -/
theorem claim_C6_witness :
    (readWithTimeout ((write 16 3 (freshState 16) Json.null).2) 0 0).1.1
      = Except.ok Json.null ∧
    (readWithTimeout ((write 16 3 (freshState 16) Json.null).2) 0 0).2 = 0 :=
  claim_C6_immediate 16 3 0 (freshState 16) Json.null (by simp [canonical])
    (by simp [dump]) (by decide)

/-- C6 counterexample: writes succeed throughout, but after exactly
2^64 of them the counter has wrapped to 0, so `readWithTimeout` with
`lastSeq = 0` does not succeed immediately — it times out — although a
successful write has occurred on the region. -/
theorem claim_C6_counterexample :
    (write 8 0 (writeIter 8 Json.null (U64 - 1) (freshState 8)) Json.null).1 = true ∧
    (readWithTimeout (writeIter 8 Json.null U64 (freshState 8)) 5 0).1.1
      = Except.error errTimeout := by
  have hfit : (dump Json.null).length ≤ 8 := by simp [dump]
  constructor
  · rw [write_fits hfit]
  · have hseq0 : (writeIter 8 Json.null U64 (freshState 8)).header.sequence_number = 0 := by
      rw [writeIter_seq hfit U64, Nat.mod_self]
    have hpoll : pollOk (writeIter 8 Json.null U64 (freshState 8)) 0 = false := by
      simp [pollOk, hseq0]
    obtain ⟨e2, heq, -, -⟩ := rwtAux_noNew hpoll 0 (by omega)
    show (rwtAux (writeIter 8 Json.null U64 (freshState 8)) 5 0 0).1.1 = Except.error errTimeout
    rw [heq]

/-- C7: polling with `lastSeq` equal to the region's current sequence
number and no intervening write fails with the timeout error, at an
elapsed time no earlier than `T` and no later than `T` plus one 10 ms
poll interval (time idealized as exact 10 ms sleeps). -/
theorem claim_C7_timeout_window (st : SMState) (T : Nat) :
    (readWithTimeout st T st.header.sequence_number).1.1 = Except.error errTimeout ∧
    T ≤ (readWithTimeout st T st.header.sequence_number).2 ∧
    (readWithTimeout st T st.header.sequence_number).2 ≤ T + 10 := by
  have hpoll : pollOk st st.header.sequence_number = false := by
    simp [pollOk]
  obtain ⟨e2, heq, h1, h2⟩ := rwtAux_noNew hpoll 0 (by omega)
  refine ⟨?_, ?_, ?_⟩
  · show (rwtAux st T st.header.sequence_number 0).1.1 = Except.error errTimeout
    rw [heq]
  · show T ≤ (rwtAux st T st.header.sequence_number 0).2
    rw [heq]
    exact h1
  · show (rwtAux st T st.header.sequence_number 0).2 ≤ T + 10
    rw [heq]
    omega

/-- C8: `read`, `readWithTimeout` and `getSequenceNumber` never mutate
the region — header and payload are bit-identical before and after —
and `getSequenceNumber` returns the state exactly as it was. -/
theorem claim_C8_readers_frame (st : SMState) (T q : Nat) :
    ((read st).2).header = st.header ∧ ((read st).2).payload = st.payload ∧
    ((readWithTimeout st T q).1.2).header = st.header ∧
    ((readWithTimeout st T q).1.2).payload = st.payload ∧
    (getSequenceNumber st).2 = st := by
  refine ⟨(read_frame st).1, (read_frame st).2, ?_, ?_, rfl⟩
  · exact (rwtAux_frame st q T 0).1
  · exact (rwtAux_frame st q T 0).2

/-- C9: the outcomes of `read`, `readWithTimeout` and
`getSequenceNumber` are independent of the advisory `timestamp` header
field: two region states identical except for the timestamp yield the
same status, the same value and the same elapsed time. -/
theorem claim_C9_timestamp_noninterference (st1 st2 : SMState) (T q : Nat)
    (hm : st1.header.magic_number = st2.header.magic_number)
    (hv : st1.header.version = st2.header.version)
    (hd : st1.header.data_size = st2.header.data_size)
    (hs : st1.header.sequence_number = st2.header.sequence_number)
    (hp : st1.payload = st2.payload) :
    (read st1).1 = (read st2).1 ∧
    (readWithTimeout st1 T q).1.1 = (readWithTimeout st2 T q).1.1 ∧
    (readWithTimeout st1 T q).2 = (readWithTimeout st2 T q).2 ∧
    (getSequenceNumber st1).1 = (getSequenceNumber st2).1 := by
  have hread : (read st1).1 = (read st2).1 := by
    rw [read_fst, read_fst, hm, hv, hd, hp]
  have hpoll : pollOk st1 q = pollOk st2 q := by
    simp [pollOk, hm, hd, hs]
  refine ⟨hread, ?_, ?_, hs⟩
  · exact (rwtAux_congr hpoll hread T 0).1
  · exact (rwtAux_congr hpoll hread T 0).2

/-- C9 witness: a fresh region of capacity 4 versus the same region
with timestamp 99 — identical outcomes for all three readers. -/
theorem claim_C9_witness :
    (read (freshState 4)).1
      = (read { freshState 4 with header := { zeroHeader with timestamp := 99 } }).1 ∧
    (readWithTimeout (freshState 4) 0 0).1.1
      = (readWithTimeout
          { freshState 4 with header := { zeroHeader with timestamp := 99 } } 0 0).1.1 ∧
    (readWithTimeout (freshState 4) 0 0).2
      = (readWithTimeout
          { freshState 4 with header := { zeroHeader with timestamp := 99 } } 0 0).2 ∧
    (getSequenceNumber (freshState 4)).1
      = (getSequenceNumber
          { freshState 4 with header := { zeroHeader with timestamp := 99 } }).1 :=
  claim_C9_timestamp_noninterference (freshState 4)
    { freshState 4 with header := { zeroHeader with timestamp := 99 } } 0 0
    rfl rfl rfl rfl rfl

/-- C10: constructing as owner (`create = true`) first unlinks both
named objects, so it never fails and never attaches: whatever was
registered under the names before, afterwards they hold a fresh
semaphore of count 1 and a zeroed region, and the returned attachment
has sequence number 0 and an empty slot. -/
theorem claim_C10_create_replaces (os : OSState) (nm : String) (cap : Nat) :
    ∃ os2, initPosixCreate os nm cap = some (os2, freshState cap) ∧
      os2.sems.lookup ("/sem_" ++ nm) = some 1 ∧
      os2.shms.lookup ("/" ++ nm) = some (zeroHeader, List.replicate cap (Char.ofNat 0)) ∧
      (freshState cap).header.sequence_number = 0 ∧
      (freshState cap).header.data_size = 0 := by
  have hnone : ((semUnlink os ("/sem_" ++ nm)).sems.lookup ("/sem_" ++ nm)) = none :=
    lookup_filterNe _ _
  have hopen : semOpenCreateExcl (semUnlink os ("/sem_" ++ nm)) ("/sem_" ++ nm)
      = some { semUnlink os ("/sem_" ++ nm) with
          sems := ("/sem_" ++ nm, 1) :: (semUnlink os ("/sem_" ++ nm)).sems } := by
    unfold semOpenCreateExcl
    rw [hnone]
    rfl
  refine ⟨shmCreateZero (shmUnlink
      { sems := ("/sem_" ++ nm, 1) :: (semUnlink os ("/sem_" ++ nm)).sems,
        shms := (semUnlink os ("/sem_" ++ nm)).shms } ("/" ++ nm)) ("/" ++ nm) cap,
    ?_, ?_, ?_, rfl, rfl⟩
  · unfold initPosixCreate
    dsimp only
    rw [hopen]
  · simp [shmCreateZero, shmUnlink, semUnlink, List.lookup]
  · simp [shmCreateZero, List.lookup]

end SharedMemorySpec
